import Mathlib

/-!
Verification development for the ranked-hit-accumulator core of
`src/src/p7_tophits.c` (the `P7_TOPHITS` object of HMMER).

Embedding conventions, fixed once for the whole file:

* A C `double`/`float` score field is modelled as `Int`.  Every claim under
  study uses these fields only through `<`, `>`, `=` comparisons, so any
  linearly ordered type is an adequate model of the comparisons the code
  performs (no arithmetic on them is embedded).
* An owned, independently nullable C string is `Option String`; the domain
  array pointer `P7_DOMAIN *dcl` is `Option (List P7_DOMAIN)` (`none` = NULL).
* The backing array `h->unsrt` holds `h->N` filled records; it is modelled by
  `store : List P7_HIT` whose length is `h->N`.  The capacity `h->Nalloc` is
  kept as a separate field, exactly as in C.
* The sorted-view array `h->hit` stores pointers `h->unsrt + k`; in the
  pointer-free model a view entry is the offset `k`, so `view : List Nat`
  models the meaningful prefix `h->hit[0 .. h->N)`.  (Pointer-level behaviour,
  which two of the claims are about, is modelled separately in namespace
  `Mem` further below, with explicit base addresses.)
* The cells of `h->hit` beyond the meaningful prefix hold stale data that the
  C code never reads; they are not represented.  `p7_tophits_Create` presets
  `h->hit[0] = h->unsrt`, which becomes the meaningful view `[0]` when the
  first record is appended.
-/

namespace P7

/-- One domain (sub-record) of a hit: `P7_DOMAIN`, as used by
`p7_tophits.c` (fields `bitscore`, `pvalue`, `domcorrection`, `is_reported`,
and the opaque alignment-display payload `ad`). -/
structure P7_DOMAIN where
  bitscore : Int
  pvalue : Int
  domcorrection : Int
  is_reported : Bool
  ad : Option Unit
deriving DecidableEq

/-- One hit record: `P7_HIT`, with the fields `p7_tophits.c` touches. -/
structure P7_HIT where
  name : Option String
  acc : Option String
  desc : Option String
  sortkey : Int
  score : Int
  pre_score : Int
  sum_score : Int
  pvalue : Int
  pre_pvalue : Int
  sum_pvalue : Int
  ndom : Nat
  nexpected : Int
  nregions : Int
  nclustered : Int
  noverlaps : Int
  nenvelopes : Int
  is_reported : Bool
  nreported : Int
  best_domain : Int
  dcl : Option (List P7_DOMAIN)
deriving DecidableEq

/-- The zero-initialized hit that `p7_tophits_CreateNextHit` hands back
(lines 127-150 of `p7_tophits.c`). -/
def hitDefault : P7_HIT where
  name := none
  acc := none
  desc := none
  sortkey := 0
  score := 0
  pre_score := 0
  sum_score := 0
  pvalue := 0
  pre_pvalue := 0
  sum_pvalue := 0
  ndom := 0
  nexpected := 0
  nregions := 0
  nclustered := 0
  noverlaps := 0
  nenvelopes := 0
  is_reported := false
  nreported := 0
  best_domain := -1
  dcl := none

/-- The hit list object `P7_TOPHITS`.  `store` is `unsrt[0..N)`,
`view` is the meaningful prefix of `hit` as offsets from `unsrt`. -/
structure P7_TOPHITS where
  store : List P7_HIT
  view : List Nat
  Nalloc : Nat
  nreported : Int
  is_sorted : Bool
deriving DecidableEq

/-- `p7_tophits_Create` (success path): empty list, default capacity 256,
trivially sorted; `hit[0]` is preset to `unsrt` (offset 0), which is what the
empty `view` grows into on the first append. -/
def p7_tophits_Create : P7_TOPHITS where
  store := []
  view := []
  Nalloc := 256
  nreported := 0
  is_sorted := true

/-- `p7_tophits_Grow` (success path; the failure path is the subject of the
`Mem` pointer-level model below): doubles `Nalloc` when the list is full.
The C pointer translation `hit[i] = unsrt + (hit[i] - ori)` is the identity
on offsets, so the view is unchanged here. -/
def p7_tophits_Grow (h : P7_TOPHITS) : P7_TOPHITS :=
  if h.store.length < h.Nalloc then h
  else { h with Nalloc := h.Nalloc * 2 }

/-- `p7_tophits_CreateNextHit` (success path): grow if needed, hand out slot
`N` zero-initialized, increment `N`, clear the sorted flag once `N ≥ 2`.
The returned `Nat` is the offset of the new slot (the C function returns the
pointer `&unsrt[N]`).  The C code writes no `hit[]` cell; at `N = 1` the
meaningful view is the cell `hit[0] = unsrt` preset by `p7_tophits_Create`. -/
def p7_tophits_CreateNextHit (h : P7_TOPHITS) : P7_TOPHITS × Nat :=
  let h1 := p7_tophits_Grow h
  let idx := h1.store.length
  ({ h1 with
      store := h1.store ++ [hitDefault]
      view := if idx = 0 then [0] else h1.view
      is_sorted := if idx + 1 ≥ 2 then false else h1.is_sorted },
   idx)

/-- Sortkey of the record at offset `i` of a store (dereference `ptr->sortkey`). -/
def keyOf (store : List P7_HIT) (i : Nat) : Int :=
  (store.getD i hitDefault).sortkey

/-- The order established by `hit_sorter` (lines 228-237): qsort ascending by
the comparator, i.e. descending by sortkey.  `hitR store i j` says the record
at offset `i` may legally precede the one at offset `j`. -/
def hitR (store : List P7_HIT) (i j : Nat) : Prop :=
  keyOf store j ≤ keyOf store i

instance (store : List P7_HIT) : DecidableRel (hitR store) :=
  fun _ _ => Int.decLe _ _

instance (store : List P7_HIT) : IsTotal Nat (hitR store) :=
  ⟨fun i j => le_total (keyOf store j) (keyOf store i)⟩

instance (store : List P7_HIT) : IsTrans Nat (hitR store) :=
  ⟨fun _ _ _ hij hjk => le_trans hjk hij⟩

/-- `p7_tophits_Sort` (lines 249-259): no-op when the flag is set; otherwise
rebuild `hit[i] = unsrt + i` and sort it with the `hit_sorter` comparator,
then set the flag.  `qsort`'s algorithm is unspecified; any permutation
consistent with the comparator is a correct run, and the model fixes
insertion sort as one such run. -/
def p7_tophits_Sort (h : P7_TOPHITS) : P7_TOPHITS :=
  if h.is_sorted then h
  else { h with
          view := List.insertionSort (hitR h.store) (List.range h.store.length)
          is_sorted := true }

/-- Structure invariant tying the sorted flag to the view (spec §3): when
`is_sorted` is set, the view holds each record exactly once, in descending
sortkey order. -/
def ViewOk (h : P7_TOPHITS) : Prop :=
  h.is_sorted = true →
    (h.view.Perm (List.range h.store.length) ∧ List.Pairwise (hitR h.store) h.view)

instance (h : P7_TOPHITS) : Decidable (ViewOk h) := by
  unfold ViewOk
  infer_instance

theorem sort_store (h : P7_TOPHITS) : (p7_tophits_Sort h).store = h.store := by
  unfold p7_tophits_Sort
  by_cases hs : h.is_sorted <;> simp [hs]

theorem sort_is_sorted (h : P7_TOPHITS) : (p7_tophits_Sort h).is_sorted = true := by
  unfold p7_tophits_Sort
  by_cases hs : h.is_sorted <;> simp [hs]

theorem sort_view_ok (h : P7_TOPHITS) (hok : ViewOk h) :
    (p7_tophits_Sort h).view.Perm (List.range h.store.length) ∧
      List.Pairwise (hitR h.store) (p7_tophits_Sort h).view := by
  unfold p7_tophits_Sort
  by_cases hs : h.is_sorted
  · simpa [hs] using hok hs
  · simp only [hs, if_neg, Bool.false_eq_true, if_false]
    constructor
    · exact List.perm_insertionSort (hitR h.store) (List.range h.store.length)
    · exact List.sorted_insertionSort (hitR h.store) (List.range h.store.length)

theorem viewOk_sort (h : P7_TOPHITS) (hok : ViewOk h) : ViewOk (p7_tophits_Sort h) := by
  intro _
  rw [sort_store]
  exact sort_view_ok h hok

/-- The two-pointer merge loop of `p7_tophits_Merge` (lines 304-307): while
both lists are live, take the donor entry `j` exactly when its sortkey is
strictly greater than the recipient entry `i`'s; then drain the leftovers.
First argument: recipient view entries; second: donor view entries (already
offset into the combined store).  Polymorphic in the entry type so that the
same loop serves the offset model (`Nat` entries) and the pointer model
(`Int` entries, namespace `Mem`). -/
def mergeHits {α : Type} (key : α → Int) : List α → List α → List α
  | [], js => js
  | i :: is, [] => i :: is
  | i :: is, j :: js =>
      if key j > key i then j :: mergeHits key (i :: is) js
      else i :: mergeHits key is (j :: js)
termination_by as bs => as.length + bs.length

theorem mergeHits_perm {α : Type} (key : α → Int) (as bs : List α) :
    (mergeHits key as bs).Perm (as ++ bs) := by
  induction as, bs using mergeHits.induct key with
  | case1 js => simp [mergeHits]
  | case2 i is => simp [mergeHits]
  | case3 i is j js hc ih =>
    rw [mergeHits, if_pos hc]
    exact (ih.cons j).trans List.perm_middle.symm
  | case4 i is j js hc ih =>
    rw [mergeHits, if_neg hc]
    exact ih.cons i

theorem mergeHits_mem {α : Type} (key : α → Int) (as bs : List α) (x : α)
    (hx : x ∈ mergeHits key as bs) : x ∈ as ∨ x ∈ bs := by
  have := (mergeHits_perm key as bs).mem_iff.mp hx
  simpa using this

/-- Merging two descending-sorted runs yields a descending-sorted run. -/
theorem mergeHits_sorted {α : Type} (key : α → Int) (as bs : List α) :
    List.Pairwise (fun i j => key j ≤ key i) as →
    List.Pairwise (fun i j => key j ≤ key i) bs →
    List.Pairwise (fun i j => key j ≤ key i) (mergeHits key as bs) := by
  induction as, bs using mergeHits.induct key with
  | case1 js => intro _ hb; simpa [mergeHits] using hb
  | case2 i is => intro ha _; simpa [mergeHits] using ha
  | case3 i is j js hc ih =>
    intro ha hb
    rw [mergeHits, if_pos hc]
    rw [List.pairwise_cons] at hb ⊢
    refine ⟨fun y hy => ?_, ih ha hb.2⟩
    rcases mergeHits_mem key (i :: is) js y hy with hy1 | hy2
    · rcases List.mem_cons.mp hy1 with rfl | hy1
      · exact le_of_lt hc
      · exact le_trans ((List.pairwise_cons.mp ha).1 y hy1) (le_of_lt hc)
    · exact hb.1 y hy2
  | case4 i is j js hc ih =>
    intro ha hb
    rw [mergeHits, if_neg hc]
    rw [List.pairwise_cons] at ha ⊢
    refine ⟨fun y hy => ?_, ih ha.2 hb⟩
    rcases mergeHits_mem key is (j :: js) y hy with hy1 | hy2
    · exact ha.1 y hy1
    · rcases List.mem_cons.mp hy2 with rfl | hy2
      · exact le_of_not_lt hc
      · exact le_trans ((List.pairwise_cons.mp hb).1 y hy2) (le_of_not_lt hc)

/-- Tie order of the merge loop: when a recipient entry `i` and a donor entry
`j` carry equal sortkeys, the recipient entry is emitted first (the strict
`>` test on line 305 favours the recipient).  Needs the recipient run sorted
and the two entry sets disjoint. -/
theorem mergeHits_tie {α : Type} (key : α → Int) (as bs : List α) :
    List.Pairwise (fun i j => key j ≤ key i) as →
    (∀ x ∈ as, x ∉ bs) →
    ∀ i ∈ as, ∀ j ∈ bs, key i = key j →
      List.Sublist [i, j] (mergeHits key as bs) := by
  induction as, bs using mergeHits.induct key with
  | case1 js =>
    intro _ _ i hi
    exact absurd hi (List.not_mem_nil i)
  | case2 i0 is =>
    intro _ _ i _ j hj
    exact absurd hj (List.not_mem_nil j)
  | case3 i0 is j0 js hc ih =>
    intro ha hdisj i hi j hj hkey
    rw [mergeHits, if_pos hc]
    have hjne : j ≠ j0 := by
      intro heq
      subst heq
      rcases List.mem_cons.mp hi with rfl | hi
      · exact absurd hkey (ne_of_gt hc).symm
      · have hle : key i ≤ key i0 := (List.pairwise_cons.mp ha).1 i hi
        rw [hkey] at hle
        exact absurd (lt_of_lt_of_le hc hle) (lt_irrefl _)
    have hj' : j ∈ js := (List.mem_cons.mp hj).resolve_left hjne
    have hdisj' : ∀ x ∈ i0 :: is, x ∉ js := fun x hx hxjs =>
      hdisj x hx (List.mem_cons_of_mem j0 hxjs)
    exact (ih ha hdisj' i hi j hj' hkey).cons j0
  | case4 i0 is j0 js hc ih =>
    intro ha hdisj i hi j hj hkey
    rw [mergeHits, if_neg hc]
    rcases List.mem_cons.mp hi with rfl | hi
    · have hjmem : j ∈ mergeHits key is (j0 :: js) :=
        (mergeHits_perm key is (j0 :: js)).mem_iff.mpr
          (List.mem_append.mpr (Or.inr hj))
      exact (List.singleton_sublist.mpr hjmem).cons₂ i
    · have hdisj' : ∀ x ∈ is, x ∉ j0 :: js := fun x hx =>
        hdisj x (List.mem_cons_of_mem i0 hx)
      exact (ih (List.pairwise_cons.mp ha).2 hdisj' i hi j hj hkey).cons i0

/-- `p7_tophits_Merge` (lines 276-329), success path (allocation failures are
the subject of the `Mem` model below).  Both lists are sorted first; `h1`'s
records keep their offsets, `h2`'s block is appended (`memcpy` at line 301,
before the donor's string pointers are nulled), the two sorted views are
merged by the two-pointer loop, and the donor's `name`/`acc`/`desc` pointers
are nulled (lines 311-316 null exactly these three fields; `dcl` is not
touched).  Returns the new `h1` and the drained `h2`. -/
def p7_tophits_Merge (h1 h2 : P7_TOPHITS) : P7_TOPHITS × P7_TOPHITS :=
  let h1s := p7_tophits_Sort h1
  let h2s := p7_tophits_Sort h2
  let N1 := h1s.store.length
  let newStore := h1s.store ++ h2s.store
  let donorView := h2s.view.map (fun j => N1 + j)
  let newView := mergeHits (keyOf newStore) h1s.view donorView
  ({ store := newStore
     view := newView
     Nalloc := h1.Nalloc + h2.Nalloc
     nreported := h1s.nreported
     is_sorted := true },
   { h2s with
      store := h2s.store.map
        (fun x => { x with name := none, acc := none, desc := none }) })

/-- The slice of `P7_PIPELINE` that `p7_tophits_Threshold` reads and writes:
the two reportability predicates (`p7_pli_TargetReportable` and
`p7_pli_DomainReportable`, external collaborators taking a score and a
P-value), the domain search space `domZ`, and whether `domZ` is set from the
number of reported targets (`domZ_setby == p7_ZSETBY_NTARGETS`). -/
structure P7_PIPELINE where
  targetRep : Int → Int → Bool
  domRep : Int → Int → Bool
  domZ : Int
  domZ_setby_ntargets : Bool

/-- Default-valued domain, used as the out-of-range fallback of `getD`
(never reached on well-formed records). -/
def domDefault : P7_DOMAIN where
  bitscore := 0
  pvalue := 0
  domcorrection := 0
  is_reported := false
  ad := none

/-- Body of the first `p7_tophits_Threshold` loop (lines 452-459): look at
the record at view offset `i`; if the target predicate accepts its score and
P-value, set its `is_reported` flag and count it. -/
def thPass1step (pred : Int → Int → Bool) (si : List P7_HIT × Int) (i : Nat) :
    List P7_HIT × Int :=
  let hit := si.1.getD i hitDefault
  if pred hit.score hit.pvalue then
    (si.1.set i { hit with is_reported := true }, si.2 + 1)
  else si

/-- First pass of `p7_tophits_Threshold`, iterating `h = 0 .. th->N-1` over
the view. -/
def thPass1 (pred : Int → Int → Bool) (view : List Nat) (si : List P7_HIT × Int) :
    List P7_HIT × Int :=
  view.foldl (thPass1step pred) si

/-- Body of the inner domain loop (lines 470-478), acting on the pair
(domain array, the record's `nreported`): report domain `d` if it is the
record's best domain or the domain predicate accepts it. -/
def thDomStep (domRep : Int → Int → Bool) (best : Int) (s : List P7_DOMAIN × Int)
    (d : Nat) : List P7_DOMAIN × Int :=
  let dom := s.1.getD d domDefault
  if best == (d : Int) || domRep dom.bitscore dom.pvalue then
    (s.1.set d { dom with is_reported := true }, s.2 + 1)
  else s

/-- The whole inner domain loop for one reported record.  When `dcl` is NULL
the C loop body would dereference NULL; on well-formed records (`DclOk`
below) `ndom = 0` then, and the loop body never runs, which the `none`
branch mirrors. -/
def processDoms (domRep : Int → Int → Bool) (hit : P7_HIT) : P7_HIT :=
  match hit.dcl with
  | none => hit
  | some l =>
      let r := (List.range hit.ndom).foldl (thDomStep domRep hit.best_domain)
        (l, hit.nreported)
      { hit with dcl := some r.1, nreported := r.2 }

/-- Body of the second `p7_tophits_Threshold` loop (lines 468-478): process
the domains of the record at view offset `i` when it is reported. -/
def thPass2step (domRep : Int → Int → Bool) (st : List P7_HIT) (i : Nat) :
    List P7_HIT :=
  let hit := st.getD i hitDefault
  if hit.is_reported then st.set i (processDoms domRep hit) else st

/-- Second pass of `p7_tophits_Threshold`. -/
def thPass2 (domRep : Int → Int → Bool) (view : List Nat) (st : List P7_HIT) :
    List P7_HIT :=
  view.foldl (thPass2step domRep) st

/-- `p7_tophits_Threshold` (lines 445-480): reset the list-level total,
first pass flags and counts reportable records, `domZ` is set from that
count when configured so, second pass flags reportable domains of reported
records.  Per-record `nreported` and all `is_reported` flags are never reset. -/
def p7_tophits_Threshold (th : P7_TOPHITS) (pli : P7_PIPELINE) :
    P7_TOPHITS × P7_PIPELINE :=
  let r1 := thPass1 pli.targetRep th.view (th.store, 0)
  let pli' := if pli.domZ_setby_ntargets then { pli with domZ := r1.2 } else pli
  let st2 := thPass2 pli.domRep th.view r1.1
  ({ th with store := st2, nreported := r1.2 }, pli')

/-- Length of the domain array behind `dcl` (0 for NULL). -/
def dclLen (hit : P7_HIT) : Nat :=
  match hit.dcl with
  | none => 0
  | some l => l.length

/-- Record well-formedness used by the Threshold claims: the `ndom` count
matches the length of the domain array (the caller-maintained contract the C
loops rely on). -/
def DclOk (hit : P7_HIT) : Prop := hit.ndom = dclLen hit

instance : DecidablePred DclOk := fun hit => Nat.decEq hit.ndom (dclLen hit)

theorem getD_set_self {α : Type} (l : List α) (i : Nat) (v d : α)
    (h : i < l.length) : (l.set i v).getD i d = v := by
  rw [List.getD_eq_getElem?_getD, List.getElem?_set_self h]; rfl

theorem getD_set_ne {α : Type} (l : List α) {i p : Nat} (v d : α)
    (hne : i ≠ p) : (l.set i v).getD p d = l.getD p d := by
  rw [List.getD_eq_getElem?_getD, List.getElem?_set_ne hne,
    ← List.getD_eq_getElem?_getD]

theorem getD_of_len_le {α : Type} (l : List α) (p : Nat) (d : α)
    (h : l.length ≤ p) : l.getD p d = d := by
  rw [List.getD_eq_getElem?_getD, List.getElem?_eq_none h]; rfl

/-- Generic shape of the counting loops above: visit each index once, test
the element there, and either rewrite it in place and bump the counter or
leave everything alone. -/
def updStep {α : Type} (c : Nat → α → Bool) (g : Nat → α → α) (d : α)
    (s : List α × Int) (i : Nat) : List α × Int :=
  let x := s.1.getD i d
  if c i x then (s.1.set i (g i x), s.2 + 1) else s

theorem thPass1step_eq_updStep (pred : Int → Int → Bool) :
    thPass1step pred =
      updStep (fun _ x => pred x.score x.pvalue)
        (fun _ x => { x with is_reported := true }) hitDefault := rfl

theorem thDomStep_eq_updStep (domRep : Int → Int → Bool) (best : Int) :
    thDomStep domRep best =
      updStep (fun d x => best == (d : Int) || domRep x.bitscore x.pvalue)
        (fun _ x => { x with is_reported := true }) domDefault := rfl

/-- What a fold of `updStep` over distinct in-range indices does: each
visited index `p` satisfying the test is rewritten by `g p` (reading the
original element), everything else is untouched, and the counter advances by
the number of visited indices passing the test. -/
theorem updStep_foldl_spec {α : Type} (c : Nat → α → Bool) (g : Nat → α → α)
    (d : α) :
    ∀ (idxs : List Nat) (st : List α) (n : Int), idxs.Nodup →
      (∀ i ∈ idxs, i < st.length) →
      (idxs.foldl (updStep c g d) (st, n)).1.length = st.length ∧
      (∀ p : Nat, (idxs.foldl (updStep c g d) (st, n)).1.getD p d =
        if p ∈ idxs ∧ c p (st.getD p d) = true then g p (st.getD p d)
        else st.getD p d) ∧
      (idxs.foldl (updStep c g d) (st, n)).2 =
        n + ((idxs.countP (fun i => c i (st.getD i d)) : Int)) := by
  intro idxs
  induction idxs with
  | nil => intro st n _ _; simp
  | cons i rest ih =>
    intro st n hnd hbnd
    have hi : i < st.length := hbnd i (List.mem_cons_self i rest)
    have hnd' : rest.Nodup := (List.nodup_cons.mp hnd).2
    have hinr : i ∉ rest := (List.nodup_cons.mp hnd).1
    rw [List.foldl_cons]
    by_cases hc : c i (st.getD i d) = true
    · have hstep : updStep c g d (st, n) i =
          (st.set i (g i (st.getD i d)), n + 1) := by
        unfold updStep; rw [if_pos hc]
      rw [hstep]
      set st' := st.set i (g i (st.getD i d)) with hst'
      have hlen' : st'.length = st.length := by rw [hst', List.length_set]
      have hbnd' : ∀ i' ∈ rest, i' < st'.length := fun i' hi' =>
        hlen' ▸ hbnd i' (List.mem_cons_of_mem i hi')
      obtain ⟨ihlen, ihget, ihcnt⟩ := ih st' (n + 1) hnd' hbnd'
      have hgetD : ∀ p : Nat, p ≠ i → st'.getD p d = st.getD p d := fun p hp =>
        getD_set_ne st _ d (Ne.symm hp)
      refine ⟨by rw [ihlen, hlen'], fun p => ?_, ?_⟩
      · rw [ihget p]
        by_cases hpr : p ∈ rest
        · have hpi : p ≠ i := fun he => hinr (he ▸ hpr)
          rw [hgetD p hpi]
          by_cases hcp : c p (st.getD p d) = true
          · rw [if_pos ⟨hpr, hcp⟩, if_pos ⟨List.mem_cons_of_mem i hpr, hcp⟩]
          · rw [if_neg (fun hand => hcp hand.2), if_neg (fun hand => hcp hand.2)]
        · by_cases hpi : p = i
          · subst hpi
            rw [if_neg (fun hand => hpr hand.1), getD_set_self st _ _ d hi,
              if_pos ⟨List.mem_cons_self p rest, hc⟩]
          · have hpm : p ∉ (i :: rest) := by
              intro hmem
              rcases List.mem_cons.mp hmem with he | hm
              · exact hpi he
              · exact hpr hm
            rw [hgetD p hpi, if_neg (fun hand => hpr hand.1),
              if_neg (fun hand => hpm hand.1)]
      · rw [ihcnt]
        have hcongr : rest.countP (fun i' => c i' (st'.getD i' d)) =
            rest.countP (fun i' => c i' (st.getD i' d)) := by
          apply List.countP_congr
          intro x hx
          rw [hgetD x (fun he => hinr (he ▸ hx))]
        rw [hcongr, List.countP_cons, hc, if_pos rfl]
        push_cast
        ring
    · have hstep : updStep c g d (st, n) i = (st, n) := by
        unfold updStep; rw [if_neg hc]
      rw [hstep]
      obtain ⟨ihlen, ihget, ihcnt⟩ :=
        ih st n hnd' (fun i' hi' => hbnd i' (List.mem_cons_of_mem i hi'))
      refine ⟨ihlen, fun p => ?_, ?_⟩
      · rw [ihget p]
        by_cases hpr : p ∈ rest
        · by_cases hcp : c p (st.getD p d) = true
          · rw [if_pos ⟨hpr, hcp⟩, if_pos ⟨List.mem_cons_of_mem i hpr, hcp⟩]
          · rw [if_neg (fun hand => hcp hand.2), if_neg (fun hand => hcp hand.2)]
        · by_cases hpi : p = i
          · subst hpi
            rw [if_neg (fun hand => hpr hand.1),
              if_neg (fun hand => hc hand.2)]
          · have hpm : p ∉ (i :: rest) := by
              intro hmem
              rcases List.mem_cons.mp hmem with he | hm
              · exact hpi he
              · exact hpr hm
            rw [if_neg (fun hand => hpr hand.1),
              if_neg (fun hand => hpm hand.1)]
      · rw [ihcnt, List.countP_cons, if_neg hc]
        simp

/-- Generic shape of the second pass (no counter). -/
def updStepL {α : Type} (c : α → Bool) (g : α → α) (d : α)
    (st : List α) (i : Nat) : List α :=
  let x := st.getD i d
  if c x then st.set i (g x) else st

theorem thPass2step_eq_updStepL (domRep : Int → Int → Bool) :
    thPass2step domRep =
      updStepL (fun x => x.is_reported) (processDoms domRep) hitDefault := rfl

theorem updStepL_foldl_spec {α : Type} (c : α → Bool) (g : α → α) (d : α) :
    ∀ (idxs : List Nat) (st : List α), idxs.Nodup →
      (∀ i ∈ idxs, i < st.length) →
      (idxs.foldl (updStepL c g d) st).length = st.length ∧
      (∀ p : Nat, (idxs.foldl (updStepL c g d) st).getD p d =
        if p ∈ idxs ∧ c (st.getD p d) = true then g (st.getD p d)
        else st.getD p d) := by
  intro idxs
  induction idxs with
  | nil => intro st _ _; simp
  | cons i rest ih =>
    intro st hnd hbnd
    have hi : i < st.length := hbnd i (List.mem_cons_self i rest)
    have hnd' : rest.Nodup := (List.nodup_cons.mp hnd).2
    have hinr : i ∉ rest := (List.nodup_cons.mp hnd).1
    rw [List.foldl_cons]
    by_cases hc : c (st.getD i d) = true
    · have hstep : updStepL c g d st i = st.set i (g (st.getD i d)) := by
        unfold updStepL; rw [if_pos hc]
      rw [hstep]
      set st' := st.set i (g (st.getD i d)) with hst'
      have hlen' : st'.length = st.length := by rw [hst', List.length_set]
      have hbnd' : ∀ i' ∈ rest, i' < st'.length := fun i' hi' =>
        hlen' ▸ hbnd i' (List.mem_cons_of_mem i hi')
      obtain ⟨ihlen, ihget⟩ := ih st' hnd' hbnd'
      have hgetD : ∀ p : Nat, p ≠ i → st'.getD p d = st.getD p d := fun p hp =>
        getD_set_ne st _ d (Ne.symm hp)
      refine ⟨by rw [ihlen, hlen'], fun p => ?_⟩
      rw [ihget p]
      by_cases hpr : p ∈ rest
      · have hpi : p ≠ i := fun he => hinr (he ▸ hpr)
        rw [hgetD p hpi]
        by_cases hcp : c (st.getD p d) = true
        · rw [if_pos ⟨hpr, hcp⟩, if_pos ⟨List.mem_cons_of_mem i hpr, hcp⟩]
        · rw [if_neg (fun hand => hcp hand.2), if_neg (fun hand => hcp hand.2)]
      · by_cases hpi : p = i
        · subst hpi
          rw [if_neg (fun hand => hpr hand.1), getD_set_self st _ _ d hi,
            if_pos ⟨List.mem_cons_self p rest, hc⟩]
        · have hpm : p ∉ (i :: rest) := by
            intro hmem
            rcases List.mem_cons.mp hmem with he | hm
            · exact hpi he
            · exact hpr hm
          rw [hgetD p hpi, if_neg (fun hand => hpr hand.1),
            if_neg (fun hand => hpm hand.1)]
    · have hstep : updStepL c g d st i = st := by
        unfold updStepL; rw [if_neg hc]
      rw [hstep]
      obtain ⟨ihlen, ihget⟩ :=
        ih st hnd' (fun i' hi' => hbnd i' (List.mem_cons_of_mem i hi'))
      refine ⟨ihlen, fun p => ?_⟩
      rw [ihget p]
      by_cases hpr : p ∈ rest
      · by_cases hcp : c (st.getD p d) = true
        · rw [if_pos ⟨hpr, hcp⟩, if_pos ⟨List.mem_cons_of_mem i hpr, hcp⟩]
        · rw [if_neg (fun hand => hcp hand.2), if_neg (fun hand => hcp hand.2)]
      · by_cases hpi : p = i
        · subst hpi
          rw [if_neg (fun hand => hpr hand.1), if_neg (fun hand => hc hand.2)]
        · have hpm : p ∉ (i :: rest) := by
            intro hmem
            rcases List.mem_cons.mp hmem with he | hm
            · exact hpi he
            · exact hpr hm
          rw [if_neg (fun hand => hpr hand.1), if_neg (fun hand => hpm hand.1)]

/-- Easel status codes returned by the fallible operations modelled here. -/
inductive EslStatus where
  | eslOK : EslStatus
  | eslEMEM : EslStatus
deriving DecidableEq

namespace Mem

/-!
Pointer-level model of `P7_TOPHITS`, used for the claims about allocation
failure, where the observable state includes where the two buffers live and
which addresses the view cells hold.  Addresses are `Int`, in units of one
array element (`sizeof(P7_HIT)` for `unsrt`, one pointer cell for `hit`).
An `ESL_RALLOC`/`ESL_ALLOC` outcome is an oracle argument `Option Int`:
`some a` means the (re)allocation succeeded and the buffer now lives at
address `a` (realloc preserves contents and may or may not move); `none`
means it failed (realloc leaves the original block and pointer intact).
-/

/-- Pointer-level `P7_TOPHITS`: `hitBase` is the address of the `hit`
buffer, `unsrtBase` the address of `unsrt`, `hitPtrs` the pointer values in
`hit[0..N)`, `store` the record contents of `unsrt[0..N)`. -/
structure P7_TOPHITS where
  hitBase : Int
  unsrtBase : Int
  hitPtrs : List Int
  store : List P7.P7_HIT
  Nalloc : Nat
  nreported : Int
  is_sorted : Bool
deriving DecidableEq

/-- A view is valid when every `hit[]` pointer lands inside the `unsrt`
buffer's live prefix. -/
def ViewValid (h : P7_TOPHITS) : Prop :=
  ∀ p ∈ h.hitPtrs, h.unsrtBase ≤ p ∧ p < h.unsrtBase + (h.store.length : Int)

instance (h : P7_TOPHITS) : Decidable (ViewValid h) :=
  List.decidableBAll _ h.hitPtrs

/-- `p7_tophits_Grow` (lines 70-98) at pointer level.  `o1` is the outcome of
`ESL_RALLOC(h->hit, ...)`, `o2` of `ESL_RALLOC(h->unsrt, ...)`.  On the
second failure the function has already adopted the reallocated `hit`
buffer (`hitBase := a1`) and then jumps to `ERROR`, returning `eslEMEM`. -/
def p7_tophits_Grow (h : P7_TOPHITS) (o1 o2 : Option Int) :
    EslStatus × P7_TOPHITS :=
  if h.store.length < h.Nalloc then (EslStatus.eslOK, h)
  else
    match o1 with
    | none => (EslStatus.eslEMEM, h)
    | some a1 =>
        let h1 := { h with hitBase := a1 }
        match o2 with
        | none => (EslStatus.eslEMEM, h1)
        | some a2 =>
            (EslStatus.eslOK,
             { h1 with
                unsrtBase := a2
                hitPtrs :=
                  if h.is_sorted then
                    h.hitPtrs.map (fun p => a2 + (p - h.unsrtBase))
                  else h.hitPtrs
                Nalloc := h.Nalloc * 2 })

/-- `p7_tophits_Sort` at pointer level: rebuild `hit[i] = unsrt + i`, qsort
(modelled as insertion sort over offsets, then turned into addresses). -/
def p7_tophits_Sort (h : P7_TOPHITS) : P7_TOPHITS :=
  if h.is_sorted then h
  else { h with
          hitPtrs :=
            (List.insertionSort (P7.hitR h.store) (List.range h.store.length)).map
              (fun i => h.unsrtBase + (i : Int))
          is_sorted := true }

/-- `p7_tophits_Merge` (lines 276-329) at pointer level.  `oR` is the outcome
of `ESL_RALLOC(h1->unsrt, ...)`, `oA` of `ESL_ALLOC(new_hit, ...)`.  The C
code fixes `h1->hit` (`hit[i] = unsrt + (hit[i] - ori1)`) only *after* both
allocations; when the first succeeds (possibly moving `unsrt`) and the
second fails, the `ERROR` path frees `new_hit` and returns with `h1->unsrt`
re-based but `h1->hit[]` still holding pointers relative to the old base. -/
def p7_tophits_Merge (h1 h2 : P7_TOPHITS) (oR oA : Option Int) :
    EslStatus × P7_TOPHITS × P7_TOPHITS :=
  let h1s := p7_tophits_Sort h1
  let h2s := p7_tophits_Sort h2
  let ori1 := h1s.unsrtBase
  match oR with
  | none => (EslStatus.eslEMEM, h1s, h2s)
  | some a =>
      let h1a := { h1s with unsrtBase := a }
      match oA with
      | none => (EslStatus.eslEMEM, h1a, h2s)
      | some ah =>
          let h1b := { h1a with
            hitPtrs := h1a.hitPtrs.map (fun p => a + (p - ori1)) }
          let N1 := h1s.store.length
          let newStore := h1s.store ++ h2s.store
          let donorPtrs := h2s.hitPtrs.map
            (fun p => (a + (N1 : Int)) + (p - h2s.unsrtBase))
          let newPtrs := mergeHits
            (fun p => (newStore.getD (p - a).toNat P7.hitDefault).sortkey)
            h1b.hitPtrs donorPtrs
          (EslStatus.eslOK,
           { h1b with
              hitBase := ah
              hitPtrs := newPtrs
              store := newStore
              Nalloc := h1s.Nalloc + h2s.Nalloc },
           { h2s with
              store := h2s.store.map
                (fun x => { x with name := none, acc := none, desc := none }) })

end Mem

/-! Small list-indexing helper lemmas shared by several claim proofs. -/

theorem getD_append_left {α : Type} (l1 l2 : List α) (i : Nat) (d : α)
    (h : i < l1.length) : (l1 ++ l2).getD i d = l1.getD i d := by
  rw [List.getD_eq_getElem?_getD, List.getD_eq_getElem?_getD,
    List.getElem?_append, if_pos h]

theorem getD_append_right {α : Type} (l1 l2 : List α) (j : Nat) (d : α) :
    (l1 ++ l2).getD (l1.length + j) d = l2.getD j d := by
  rw [List.getD_eq_getElem?_getD, List.getD_eq_getElem?_getD]
  congr 1
  rw [List.getElem?_append, if_neg (by omega)]
  congr 1
  omega

theorem map_getD_range {α : Type} (l : List α) (d : α) :
    (List.range l.length).map (fun i => l.getD i d) = l := by
  apply List.ext_getElem
  · simp
  · intro n h1 h2
    simp only [List.getElem_map, List.getElem_range]
    exact List.getD_eq_getElem l d h2

theorem getD_mem {α : Type} (l : List α) (p : Nat) (d : α)
    (h : p < l.length) : l.getD p d ∈ l := by
  rw [List.getD_eq_getElem l d h]
  exact List.getElem_mem h

/-- Sortkeys of the first block of an appended store. -/
theorem keyOf_append_left (s1 s2 : List P7_HIT) (i : Nat)
    (h : i < s1.length) : keyOf (s1 ++ s2) i = keyOf s1 i := by
  unfold keyOf
  rw [getD_append_left s1 s2 i hitDefault h]

/-- Sortkeys of the appended donor block. -/
theorem keyOf_append_right (s1 s2 : List P7_HIT) (j : Nat) :
    keyOf (s1 ++ s2) (s1.length + j) = keyOf s2 j := by
  unfold keyOf
  rw [getD_append_right s1 s2 j hitDefault]

/-! Claim-level concrete inputs are built from this helper. -/

/-- A hit with a given sortkey and name and default everything else (the
state a caller reaches by filling only those fields of a fresh slot). -/
def mkHit (k : Int) (nm : Option String) : P7_HIT :=
  { hitDefault with sortkey := k, name := nm }

/-- C8. `p7_tophits_Sort` is idempotent: the second call sees the sorted
flag set by the first and returns the structure unchanged, so the whole
structure (in particular the view) is exactly that of a single call. -/
theorem C8_sort_idempotent (h : P7_TOPHITS) :
    p7_tophits_Sort (p7_tophits_Sort h) = p7_tophits_Sort h := by
  unfold p7_tophits_Sort
  by_cases hs : h.is_sorted <;> simp [hs]

theorem grow_store (h : P7_TOPHITS) : (p7_tophits_Grow h).store = h.store := by
  unfold p7_tophits_Grow
  split <;> rfl

theorem grow_is_sorted (h : P7_TOPHITS) :
    (p7_tophits_Grow h).is_sorted = h.is_sorted := by
  unfold p7_tophits_Grow
  split <;> rfl

theorem createNextHit_length (h : P7_TOPHITS) :
    (p7_tophits_CreateNextHit h).1.store.length = h.store.length + 1 := by
  simp [p7_tophits_CreateNextHit, grow_store]

theorem createNextHit_sorted_flag (h : P7_TOPHITS) :
    (p7_tophits_CreateNextHit h).1.is_sorted =
      (decide ((p7_tophits_CreateNextHit h).1.store.length ≤ 1) && h.is_sorted) := by
  simp only [p7_tophits_CreateNextHit, grow_store, grow_is_sorted,
    List.length_append, List.length_cons, List.length_nil]
  rcases Nat.eq_zero_or_pos h.store.length with h0 | hpos
  · rw [h0]
    simp
  · rw [if_pos (by omega), decide_eq_false (by omega)]
    simp

/-- Repeated two-phase appends starting from a fresh list: the list state
after `n` calls of `p7_tophits_CreateNextHit` on `p7_tophits_Create`. -/
def appendFromCreate : Nat → P7_TOPHITS
  | 0 => p7_tophits_Create
  | n + 1 => (p7_tophits_CreateNextHit (appendFromCreate n)).1

theorem appendFromCreate_length (n : Nat) :
    (appendFromCreate n).store.length = n := by
  induction n with
  | zero => rfl
  | succ n ih => rw [appendFromCreate, createNextHit_length, ih]

/-- C9. The sorted flag tracks the size across appends: a fresh list is
flagged sorted, it stays flagged through the first append, and every
append that makes (or keeps) the count ≥ 2 leaves the flag false;
in general an append keeps the old flag only in the zero-to-one case. -/
theorem C9_sorted_flag_tracks_appends :
    (∀ n : Nat, (appendFromCreate n).is_sorted = decide (n ≤ 1)) ∧
    (∀ h : P7_TOPHITS, (p7_tophits_CreateNextHit h).1.is_sorted =
      (decide ((p7_tophits_CreateNextHit h).1.store.length ≤ 1) && h.is_sorted)) := by
  constructor
  · intro n
    match n with
    | 0 => rfl
    | n + 1 =>
      rw [appendFromCreate, createNextHit_sorted_flag, createNextHit_length,
        appendFromCreate_length]
      match n with
      | 0 => rfl
      | m + 1 =>
        rw [decide_eq_false (by omega)]
        simp
  · exact createNextHit_sorted_flag

/-- C7. After `p7_tophits_Sort`, for all positions `i < j` of the view the
sortkey at `i` is ≥ the sortkey at `j`, and the view is a permutation of all
`N` records — for any list satisfying the structure invariant `ViewOk`
(the sorted flag is honest). -/
theorem C7_sort_descending_view (h : P7_TOPHITS) (hok : ViewOk h) :
    List.Pairwise (fun i j => keyOf h.store j ≤ keyOf h.store i)
      (p7_tophits_Sort h).view ∧
    (p7_tophits_Sort h).view.Perm (List.range h.store.length) := by
  have hsv := sort_view_ok h hok
  exact ⟨hsv.2, hsv.1⟩

/-- A three-record list with out-of-order sortkeys, not yet sorted. -/
def c7ex : P7_TOPHITS :=
  { store := [mkHit 5 (some "a"), mkHit 100 (some "b"), mkHit 1 (some "c")]
    view := []
    Nalloc := 256
    nreported := 0
    is_sorted := false }

/-- Witness for C7 at a concrete three-record list. -/
theorem C7_witness :
    ViewOk c7ex ∧
    (List.Pairwise (fun i j => keyOf c7ex.store j ≤ keyOf c7ex.store i)
        (p7_tophits_Sort c7ex).view ∧
      (p7_tophits_Sort c7ex).view.Perm (List.range c7ex.store.length)) :=
  ⟨by decide, C7_sort_descending_view c7ex (by decide)⟩

/-- A full (N = Nalloc), sorted, valid one-record list at pointer level. -/
def c6ex : Mem.P7_TOPHITS :=
  { hitBase := 0
    unsrtBase := 100
    hitPtrs := [100]
    store := [mkHit 5 (some "x")]
    Nalloc := 1
    nreported := 0
    is_sorted := true }

/-- C6 as stated is false: when `ESL_RALLOC(h->hit, ...)` succeeds at a new
address (here 7) and `ESL_RALLOC(h->unsrt, ...)` then fails,
`p7_tophits_Grow` returns `eslEMEM` with the `hit` field already pointing at
the adopted larger buffer — the structure is not left with every field
unchanged. -/
theorem C6_counterexample :
    (Mem.p7_tophits_Grow c6ex (some 7) none).1 = EslStatus.eslEMEM ∧
    (Mem.p7_tophits_Grow c6ex (some 7) none).2 ≠ c6ex ∧
    (Mem.p7_tophits_Grow c6ex (some 7) none).2.hitBase ≠ c6ex.hitBase := by
  decide

/-- C6 amended: on any allocation failure in `p7_tophits_Grow` the record
data and every field except the `hit` buffer address are unchanged (the
`hit` pointer array may have been reallocated, with identical contents, when
its reallocation succeeded before the record-array reallocation failed;
`Nalloc` still records the old capacity). -/
theorem C6_amended_grow_failure (h : Mem.P7_TOPHITS) (o1 o2 : Option Int)
    (herr : (Mem.p7_tophits_Grow h o1 o2).1 = EslStatus.eslEMEM) :
    (Mem.p7_tophits_Grow h o1 o2).2.unsrtBase = h.unsrtBase ∧
    (Mem.p7_tophits_Grow h o1 o2).2.hitPtrs = h.hitPtrs ∧
    (Mem.p7_tophits_Grow h o1 o2).2.store = h.store ∧
    (Mem.p7_tophits_Grow h o1 o2).2.Nalloc = h.Nalloc ∧
    (Mem.p7_tophits_Grow h o1 o2).2.nreported = h.nreported ∧
    (Mem.p7_tophits_Grow h o1 o2).2.is_sorted = h.is_sorted := by
  by_cases hfull : h.store.length < h.Nalloc
  · simp [Mem.p7_tophits_Grow, hfull] at herr
  · cases o1 with
    | none => simp [Mem.p7_tophits_Grow, hfull]
    | some a1 =>
      cases o2 with
      | none => simp [Mem.p7_tophits_Grow, hfull]
      | some a2 => simp [Mem.p7_tophits_Grow, hfull] at herr

/-- Witness for the amended C6 at the concrete input of the counterexample. -/
theorem C6_amended_witness :
    (Mem.p7_tophits_Grow c6ex (some 7) none).1 = EslStatus.eslEMEM ∧
    ((Mem.p7_tophits_Grow c6ex (some 7) none).2.unsrtBase = c6ex.unsrtBase ∧
     (Mem.p7_tophits_Grow c6ex (some 7) none).2.hitPtrs = c6ex.hitPtrs ∧
     (Mem.p7_tophits_Grow c6ex (some 7) none).2.store = c6ex.store ∧
     (Mem.p7_tophits_Grow c6ex (some 7) none).2.Nalloc = c6ex.Nalloc ∧
     (Mem.p7_tophits_Grow c6ex (some 7) none).2.nreported = c6ex.nreported ∧
     (Mem.p7_tophits_Grow c6ex (some 7) none).2.is_sorted = c6ex.is_sorted) :=
  ⟨by decide, C6_amended_grow_failure c6ex (some 7) none (by decide)⟩

/-- Sorted one-record recipient at pointer level, view pointer 100 = its
`unsrt` base. -/
def c3h1 : Mem.P7_TOPHITS :=
  { hitBase := 0
    unsrtBase := 100
    hitPtrs := [100]
    store := [mkHit 5 (some "x")]
    Nalloc := 1
    nreported := 0
    is_sorted := true }

/-- Empty sorted donor at pointer level. -/
def c3h2 : Mem.P7_TOPHITS :=
  { hitBase := 10
    unsrtBase := 50
    hitPtrs := []
    store := []
    Nalloc := 1
    nreported := 0
    is_sorted := true }

/-- C3 names a real bug: when `ESL_RALLOC(h1->unsrt, ...)` succeeds at a
moved address (here 200) and `ESL_ALLOC(new_hit, ...)` then fails,
`p7_tophits_Merge` returns `eslEMEM` with `h1` mutated and invalid: its
`unsrt` base has changed while its `hit[]` cells still hold pointers into
the old block — contradicting both the claim and the function's own
documentation that on `eslEMEM` both inputs remain valid. -/
theorem C3_bug_merge_failure_corrupts_h1 :
    (Mem.p7_tophits_Merge c3h1 c3h2 (some 200) none).1 = EslStatus.eslEMEM ∧
    Mem.ViewValid c3h1 ∧
    (Mem.p7_tophits_Merge c3h1 c3h2 (some 200) none).2.1 ≠ c3h1 ∧
    ¬ Mem.ViewValid ((Mem.p7_tophits_Merge c3h1 c3h2 (some 200) none).2.1) := by
  decide

/-- A domain carrying a live alignment payload, owned by the donor below. -/
def c2dom : P7_DOMAIN :=
  { bitscore := 3, pvalue := 1, domcorrection := 0, is_reported := false,
    ad := some () }

/-- Sorted one-record recipient. -/
def c2h1 : P7_TOPHITS :=
  { store := [mkHit 9 (some "r1")]
    view := [0]
    Nalloc := 256
    nreported := 0
    is_sorted := true }

/-- Sorted one-record donor whose record owns strings and a domain array. -/
def c2h2 : P7_TOPHITS :=
  { store := [{ mkHit 5 (some "d1") with
      acc := some "A1", desc := some "D1", ndom := 1, best_domain := 0,
      dcl := some [c2dom] }]
    view := [0]
    Nalloc := 256
    nreported := 0
    is_sorted := true }

/-- C2 names a real bug: after the merge the donor's `name`, `acc` and
`desc` are nulled, but its `dcl` pointer is NOT — the same domain array
stays reachable from the donor record and from its copy in the recipient,
so destroying the donor (which the function's documentation invites) frees
payload now owned by the recipient. -/
theorem C2_bug_donor_dcl_not_nulled :
    ((p7_tophits_Merge c2h1 c2h2).2.store.getD 0 hitDefault).name = none ∧
    ((p7_tophits_Merge c2h1 c2h2).2.store.getD 0 hitDefault).acc = none ∧
    ((p7_tophits_Merge c2h1 c2h2).2.store.getD 0 hitDefault).desc = none ∧
    ((p7_tophits_Merge c2h1 c2h2).2.store.getD 0 hitDefault).dcl = some [c2dom] ∧
    ((p7_tophits_Merge c2h1 c2h2).1.store.getD 1 hitDefault).dcl = some [c2dom] := by
  decide

/-- Sorted one-record recipient with sortkey 5, name "r". -/
def c1h1 : P7_TOPHITS :=
  { store := [mkHit 5 (some "r")]
    view := [0]
    Nalloc := 256
    nreported := 0
    is_sorted := true }

/-- Sorted one-record donor with the same sortkey 5, name "d". -/
def c1h2 : P7_TOPHITS :=
  { store := [mkHit 5 (some "d")]
    view := [0]
    Nalloc := 256
    nreported := 0
    is_sorted := true }

/-- C1 as stated is false: with one recipient hit and one donor hit of equal
sortkey, the merged view is `[0, 1]` — the recipient's record (combined
offset 0) comes first and the donor's (combined offset 1) second, so the
donor's hit is NOT placed before the recipient's on this tie. -/
theorem C1_counterexample :
    keyOf c1h1.store 0 = keyOf c1h2.store 0 ∧
    (p7_tophits_Merge c1h1 c1h2).1.view = [0, 1] ∧
    ¬ List.Sublist [1, 0] (p7_tophits_Merge c1h1 c1h2).1.view := by
  have hview : (p7_tophits_Merge c1h1 c1h2).1.view = [0, 1] := by
    norm_num [p7_tophits_Merge, p7_tophits_Sort, mergeHits, keyOf, c1h1, c1h2,
      mkHit, hitDefault]
  refine ⟨by decide, hview, ?_⟩
  rw [hview]
  decide

/-! Scaffolding for the merge claims: the merged store and view written out,
and the sortedness of the two merged runs over the combined store. -/

theorem merge_store_eq (h1 h2 : P7_TOPHITS) :
    (p7_tophits_Merge h1 h2).1.store = h1.store ++ h2.store := by
  show (p7_tophits_Sort h1).store ++ (p7_tophits_Sort h2).store = _
  rw [sort_store, sort_store]

theorem merge_view_eq (h1 h2 : P7_TOPHITS) :
    (p7_tophits_Merge h1 h2).1.view =
      mergeHits (keyOf (h1.store ++ h2.store)) (p7_tophits_Sort h1).view
        ((p7_tophits_Sort h2).view.map (fun j => h1.store.length + j)) := by
  show mergeHits
      (keyOf ((p7_tophits_Sort h1).store ++ (p7_tophits_Sort h2).store))
      (p7_tophits_Sort h1).view
      ((p7_tophits_Sort h2).view.map
        (fun j => (p7_tophits_Sort h1).store.length + j)) = _
  rw [sort_store, sort_store]

theorem sorted_recipient_run (h1 h2 : P7_TOPHITS) (hok1 : ViewOk h1) :
    List.Pairwise
      (fun i j => keyOf (h1.store ++ h2.store) j ≤ keyOf (h1.store ++ h2.store) i)
      (p7_tophits_Sort h1).view := by
  obtain ⟨hp, hs⟩ := sort_view_ok h1 hok1
  refine hs.imp_of_mem ?_
  intro a b ha hb hr
  have ha' : a < h1.store.length := List.mem_range.mp (hp.subset ha)
  have hb' : b < h1.store.length := List.mem_range.mp (hp.subset hb)
  rw [keyOf_append_left h1.store h2.store a ha',
    keyOf_append_left h1.store h2.store b hb']
  exact hr

theorem sorted_donor_run (h1 h2 : P7_TOPHITS) (hok2 : ViewOk h2) :
    List.Pairwise
      (fun i j => keyOf (h1.store ++ h2.store) j ≤ keyOf (h1.store ++ h2.store) i)
      ((p7_tophits_Sort h2).view.map (fun j => h1.store.length + j)) := by
  rw [List.pairwise_map]
  refine ((sort_view_ok h2 hok2).2).imp ?_
  intro a b hr
  rw [keyOf_append_right h1.store h2.store a, keyOf_append_right h1.store h2.store b]
  exact hr

/-- C1 amended: in `p7_tophits_Merge(h1, h2)` the *recipient's* record wins
ties — whenever a recipient hit (combined offset `i`) and a donor hit
(combined offset `N1 + j`) have equal sortkeys, the recipient's hit is
placed before the donor's in the merged view. -/
theorem C1_amended_recipient_wins_ties (h1 h2 : P7_TOPHITS)
    (hok1 : ViewOk h1) (hok2 : ViewOk h2) (i j : Nat)
    (hi : i < h1.store.length) (hj : j < h2.store.length)
    (hkey : keyOf h1.store i = keyOf h2.store j) :
    List.Sublist [i, h1.store.length + j] (p7_tophits_Merge h1 h2).1.view := by
  rw [merge_view_eq]
  obtain ⟨hp1, _⟩ := sort_view_ok h1 hok1
  obtain ⟨hp2, _⟩ := sort_view_ok h2 hok2
  apply mergeHits_tie
  · exact sorted_recipient_run h1 h2 hok1
  · intro x hx hx2
    have hxlt : x < h1.store.length := List.mem_range.mp (hp1.subset hx)
    obtain ⟨b, _, hb⟩ := List.mem_map.mp hx2
    omega
  · exact hp1.mem_iff.mpr (List.mem_range.mpr hi)
  · exact List.mem_map.mpr ⟨j, hp2.mem_iff.mpr (List.mem_range.mpr hj), rfl⟩
  · rw [keyOf_append_left h1.store h2.store i hi, keyOf_append_right]
    exact hkey

/-- Sorted two-record recipient (keys 7 ≥ 5), second record ties the donor. -/
def c1aex1 : P7_TOPHITS :=
  { store := [mkHit 7 (some "r0"), mkHit 5 (some "r1")]
    view := [0, 1]
    Nalloc := 256
    nreported := 0
    is_sorted := true }

/-- Sorted one-record donor with sortkey 5. -/
def c1aex2 : P7_TOPHITS :=
  { store := [mkHit 5 (some "d0")]
    view := [0]
    Nalloc := 256
    nreported := 0
    is_sorted := true }

/-- Witness for the amended C1: recipient offset 1 precedes donor offset
2+0 in the merged view of the concrete tie above. -/
theorem C1_amended_witness :
    ViewOk c1aex1 ∧ ViewOk c1aex2 ∧ 1 < c1aex1.store.length ∧
    0 < c1aex2.store.length ∧ keyOf c1aex1.store 1 = keyOf c1aex2.store 0 ∧
    List.Sublist [1, c1aex1.store.length + 0]
      (p7_tophits_Merge c1aex1 c1aex2).1.view :=
  ⟨by decide, by decide, by decide, by decide, by decide,
    C1_amended_recipient_wins_ties c1aex1 c1aex2 (by decide) (by decide) 1 0
      (by decide) (by decide) (by decide)⟩

/-- C5. For any two well-formed lists of sizes N and M, `p7_tophits_Merge`
yields a list of size N+M whose view is a descending-sortkey permutation of
all N+M records, and whose view-ordered records are exactly the multiset
union of the two inputs' records (by value, not by pointer). -/
theorem C5_merge_size_order_multiset (h1 h2 : P7_TOPHITS)
    (hok1 : ViewOk h1) (hok2 : ViewOk h2) :
    (p7_tophits_Merge h1 h2).1.store.length =
      h1.store.length + h2.store.length ∧
    (p7_tophits_Merge h1 h2).1.view.Perm
      (List.range (h1.store.length + h2.store.length)) ∧
    List.Pairwise
      (fun i j => keyOf (p7_tophits_Merge h1 h2).1.store j ≤
        keyOf (p7_tophits_Merge h1 h2).1.store i)
      (p7_tophits_Merge h1 h2).1.view ∧
    (↑((p7_tophits_Merge h1 h2).1.view.map
        (fun i => (p7_tophits_Merge h1 h2).1.store.getD i hitDefault)) :
      Multiset P7_HIT) = ↑h1.store + ↑h2.store := by
  obtain ⟨hp1, _⟩ := sort_view_ok h1 hok1
  obtain ⟨hp2, _⟩ := sort_view_ok h2 hok2
  have hlen : (p7_tophits_Merge h1 h2).1.store.length =
      h1.store.length + h2.store.length := by
    rw [merge_store_eq, List.length_append]
  have hperm : (p7_tophits_Merge h1 h2).1.view.Perm
      (List.range (h1.store.length + h2.store.length)) := by
    rw [merge_view_eq]
    refine (mergeHits_perm _ _ _).trans ?_
    rw [List.range_add]
    exact hp1.append (hp2.map (fun j => h1.store.length + j))
  refine ⟨hlen, hperm, ?_, ?_⟩
  · rw [merge_view_eq, merge_store_eq]
    exact mergeHits_sorted _ _ _ (sorted_recipient_run h1 h2 hok1)
      (sorted_donor_run h1 h2 hok2)
  · rw [Multiset.coe_add, Multiset.coe_eq_coe]
    have hmap : ((p7_tophits_Merge h1 h2).1.view.map
        (fun i => (p7_tophits_Merge h1 h2).1.store.getD i hitDefault)).Perm
        ((List.range (h1.store.length + h2.store.length)).map
          (fun i => (p7_tophits_Merge h1 h2).1.store.getD i hitDefault)) :=
      hperm.map _
    refine hmap.trans ?_
    rw [← hlen, map_getD_range, merge_store_eq]

/-- Unsorted three-record list with scrambled keys (spec §8 scenario shape). -/
def c5ex1 : P7_TOPHITS :=
  { store := [mkHit 5 (some "a"), mkHit 100 (some "b"), mkHit 1 (some "c")]
    view := []
    Nalloc := 256
    nreported := 0
    is_sorted := false }

/-- Unsorted two-record list bracketing the first list's keys. -/
def c5ex2 : P7_TOPHITS :=
  { store := [mkHit 200 (some "top"), mkHit (-10) (some "bottom")]
    view := []
    Nalloc := 256
    nreported := 0
    is_sorted := false }

/-- Witness for C5 at a concrete 3+2 merge. -/
theorem C5_witness :
    ViewOk c5ex1 ∧ ViewOk c5ex2 ∧
    ((p7_tophits_Merge c5ex1 c5ex2).1.store.length =
        c5ex1.store.length + c5ex2.store.length ∧
      (p7_tophits_Merge c5ex1 c5ex2).1.view.Perm
        (List.range (c5ex1.store.length + c5ex2.store.length)) ∧
      List.Pairwise
        (fun i j => keyOf (p7_tophits_Merge c5ex1 c5ex2).1.store j ≤
          keyOf (p7_tophits_Merge c5ex1 c5ex2).1.store i)
        (p7_tophits_Merge c5ex1 c5ex2).1.view ∧
      (↑((p7_tophits_Merge c5ex1 c5ex2).1.view.map
          (fun i => (p7_tophits_Merge c5ex1 c5ex2).1.store.getD i hitDefault)) :
        Multiset P7_HIT) = ↑c5ex1.store + ↑c5ex2.store) :=
  ⟨by decide, by decide,
    C5_merge_size_order_multiset c5ex1 c5ex2 (by decide) (by decide)⟩

/-! Scaffolding for the Threshold claims: what `p7_tophits_Threshold` does to
each record, expressed through the per-record functions `f1` (first pass)
and `f2` (second pass). -/

/-- Effect of the first Threshold pass on one record. -/
def f1 (pred : Int → Int → Bool) (x : P7_HIT) : P7_HIT :=
  if pred x.score x.pvalue then { x with is_reported := true } else x

/-- Effect of the second Threshold pass on one record. -/
def f2 (domRep : Int → Int → Bool) (x : P7_HIT) : P7_HIT :=
  if x.is_reported then processDoms domRep x else x

/-- The domain-reporting test of the inner loop, as a function of the domain
index over a fixed domain array. -/
def domCond (domRep : Int → Int → Bool) (best : Int) (l : List P7_DOMAIN)
    (d : Nat) : Bool :=
  best == (d : Int) ||
    domRep (l.getD d domDefault).bitscore (l.getD d domDefault).pvalue

theorem setRep_eq_self (x : P7_HIT) (hx : x.is_reported = true) :
    ({ x with is_reported := true } : P7_HIT) = x := by
  cases x
  simp only at hx
  simp [hx]

theorem f1_score (pred : Int → Int → Bool) (x : P7_HIT) :
    (f1 pred x).score = x.score := by
  unfold f1; split <;> rfl

theorem f1_pvalue (pred : Int → Int → Bool) (x : P7_HIT) :
    (f1 pred x).pvalue = x.pvalue := by
  unfold f1; split <;> rfl

theorem f1_nreported (pred : Int → Int → Bool) (x : P7_HIT) :
    (f1 pred x).nreported = x.nreported := by
  unfold f1; split <;> rfl

theorem f1_dcl (pred : Int → Int → Bool) (x : P7_HIT) :
    (f1 pred x).dcl = x.dcl := by
  unfold f1; split <;> rfl

theorem f1_ndom (pred : Int → Int → Bool) (x : P7_HIT) :
    (f1 pred x).ndom = x.ndom := by
  unfold f1; split <;> rfl

theorem f1_best (pred : Int → Int → Bool) (x : P7_HIT) :
    (f1 pred x).best_domain = x.best_domain := by
  unfold f1; split <;> rfl

theorem f1_flag (pred : Int → Int → Bool) (x : P7_HIT) :
    (f1 pred x).is_reported = (x.is_reported || pred x.score x.pvalue) := by
  unfold f1; split <;> simp [*]

theorem f1_of_reported (pred : Int → Int → Bool) (x : P7_HIT)
    (hx : x.is_reported = true) : f1 pred x = x := by
  unfold f1
  split
  · exact setRep_eq_self x hx
  · rfl

theorem pd_score (domRep : Int → Int → Bool) (x : P7_HIT) :
    (processDoms domRep x).score = x.score := by
  cases hd : x.dcl <;> simp [processDoms, hd]

theorem pd_pvalue (domRep : Int → Int → Bool) (x : P7_HIT) :
    (processDoms domRep x).pvalue = x.pvalue := by
  cases hd : x.dcl <;> simp [processDoms, hd]

theorem pd_flag (domRep : Int → Int → Bool) (x : P7_HIT) :
    (processDoms domRep x).is_reported = x.is_reported := by
  cases hd : x.dcl <;> simp [processDoms, hd]

theorem pd_ndom (domRep : Int → Int → Bool) (x : P7_HIT) :
    (processDoms domRep x).ndom = x.ndom := by
  cases hd : x.dcl <;> simp [processDoms, hd]

theorem pd_best (domRep : Int → Int → Bool) (x : P7_HIT) :
    (processDoms domRep x).best_domain = x.best_domain := by
  cases hd : x.dcl <;> simp [processDoms, hd]

theorem f2_score (domRep : Int → Int → Bool) (x : P7_HIT) :
    (f2 domRep x).score = x.score := by
  unfold f2
  split
  · exact pd_score domRep x
  · rfl

theorem f2_pvalue (domRep : Int → Int → Bool) (x : P7_HIT) :
    (f2 domRep x).pvalue = x.pvalue := by
  unfold f2
  split
  · exact pd_pvalue domRep x
  · rfl

theorem f2_flag (domRep : Int → Int → Bool) (x : P7_HIT) :
    (f2 domRep x).is_reported = x.is_reported := by
  unfold f2
  split
  · exact pd_flag domRep x
  · rfl

/-- What `processDoms` does to a record whose domain array is live and
consistent: each domain index passing the test is flagged, the others are
untouched, and the record's `nreported` advances by the number of passing
indices. -/
theorem processDoms_spec (domRep : Int → Int → Bool) (x : P7_HIT)
    (l : List P7_DOMAIN) (hdcl : x.dcl = some l) (hlen : x.ndom = l.length) :
    ∃ l' : List P7_DOMAIN,
      (processDoms domRep x).dcl = some l' ∧ l'.length = l.length ∧
      (∀ d : Nat, l'.getD d domDefault =
        if d ∈ List.range x.ndom ∧ domCond domRep x.best_domain l d = true
        then { l.getD d domDefault with is_reported := true }
        else l.getD d domDefault) ∧
      (processDoms domRep x).nreported =
        x.nreported +
          (((List.range x.ndom).countP (domCond domRep x.best_domain l)) : Int) := by
  have hbnd : ∀ d ∈ List.range x.ndom, d < l.length := fun d hd =>
    hlen ▸ List.mem_range.mp hd
  obtain ⟨hl, hget, hcnt⟩ :=
    updStep_foldl_spec
      (fun d dom => x.best_domain == (d : Int) ||
        domRep dom.bitscore dom.pvalue)
      (fun _ dom => { dom with is_reported := true }) domDefault
      (List.range x.ndom) l x.nreported (List.nodup_range x.ndom) hbnd
  have hpd : processDoms domRep x =
      { x with
        dcl := some (((List.range x.ndom).foldl
          (updStep (fun d dom => x.best_domain == (d : Int) ||
            domRep dom.bitscore dom.pvalue)
          (fun _ dom => { dom with is_reported := true }) domDefault)
          (l, x.nreported)).1)
        nreported := ((List.range x.ndom).foldl
          (updStep (fun d dom => x.best_domain == (d : Int) ||
            domRep dom.bitscore dom.pvalue)
          (fun _ dom => { dom with is_reported := true }) domDefault)
          (l, x.nreported)).2 } := by
    simp only [processDoms, hdcl, thDomStep_eq_updStep]
  refine ⟨_, ?_, hl, hget, ?_⟩
  · rw [hpd]
  · rw [hpd]
    exact hcnt

/-- What `p7_tophits_Threshold` does when the view enumerates each record
exactly once: record `p` becomes `f2 (f1 record)`, the rest is untouched,
the view is unchanged, and the list-level total counts the records accepted
by the target predicate. -/
theorem threshold_spec (th : P7_TOPHITS) (pli : P7_PIPELINE)
    (hperm : th.view.Perm (List.range th.store.length)) :
    (p7_tophits_Threshold th pli).1.store.length = th.store.length ∧
    (∀ p : Nat, (p7_tophits_Threshold th pli).1.store.getD p hitDefault =
      if p ∈ th.view then
        f2 pli.domRep (f1 pli.targetRep (th.store.getD p hitDefault))
      else th.store.getD p hitDefault) ∧
    (p7_tophits_Threshold th pli).1.nreported =
      ((th.view.countP (fun i =>
        pli.targetRep (th.store.getD i hitDefault).score
          (th.store.getD i hitDefault).pvalue)) : Int) ∧
    (p7_tophits_Threshold th pli).1.view = th.view := by
  have hnd : th.view.Nodup := (hperm.nodup_iff).mpr (List.nodup_range _)
  have hbnd : ∀ i ∈ th.view, i < th.store.length := fun i hi =>
    List.mem_range.mp (hperm.subset hi)
  obtain ⟨hl1, hget1, hcnt1⟩ :=
    updStep_foldl_spec (fun _ x => pli.targetRep x.score x.pvalue)
      (fun _ x => { x with is_reported := true }) hitDefault
      th.view th.store 0 hnd hbnd
  have hp1 : thPass1 pli.targetRep th.view (th.store, 0) =
      th.view.foldl (updStep (fun _ x => pli.targetRep x.score x.pvalue)
        (fun _ x => { x with is_reported := true }) hitDefault) (th.store, 0) := by
    rw [thPass1, thPass1step_eq_updStep]
  have hlen1 : (thPass1 pli.targetRep th.view (th.store, 0)).1.length =
      th.store.length := by
    rw [hp1]; exact hl1
  have hchar1 : ∀ p : Nat,
      (thPass1 pli.targetRep th.view (th.store, 0)).1.getD p hitDefault =
      if p ∈ th.view then f1 pli.targetRep (th.store.getD p hitDefault)
      else th.store.getD p hitDefault := by
    intro p
    have hg1 := hget1 p
    rw [← hp1] at hg1
    by_cases hm : p ∈ th.view
    · by_cases hc : pli.targetRep (th.store.getD p hitDefault).score
          (th.store.getD p hitDefault).pvalue = true
      · rw [hg1, if_pos ⟨hm, hc⟩, if_pos hm]
        unfold f1
        rw [if_pos hc]
      · rw [hg1, if_neg (fun hand => hc hand.2), if_pos hm]
        unfold f1
        rw [if_neg hc]
    · rw [hg1, if_neg (fun hand => hm hand.1), if_neg hm]
  have hbnd2 : ∀ i ∈ th.view,
      i < (thPass1 pli.targetRep th.view (th.store, 0)).1.length := by
    rw [hlen1]; exact hbnd
  obtain ⟨hl2, hget2⟩ :=
    updStepL_foldl_spec (fun x => x.is_reported) (processDoms pli.domRep)
      hitDefault th.view (thPass1 pli.targetRep th.view (th.store, 0)).1 hnd hbnd2
  have hp2 : thPass2 pli.domRep th.view
        (thPass1 pli.targetRep th.view (th.store, 0)).1 =
      th.view.foldl (updStepL (fun x => x.is_reported) (processDoms pli.domRep)
        hitDefault) (thPass1 pli.targetRep th.view (th.store, 0)).1 := by
    rw [thPass2, thPass2step_eq_updStepL]
  have hsval : (p7_tophits_Threshold th pli).1.store =
      thPass2 pli.domRep th.view
        (thPass1 pli.targetRep th.view (th.store, 0)).1 := rfl
  have hnval : (p7_tophits_Threshold th pli).1.nreported =
      (thPass1 pli.targetRep th.view (th.store, 0)).2 := rfl
  refine ⟨?_, ?_, ?_, rfl⟩
  · rw [hsval, hp2, hl2, hlen1]
  · intro p
    rw [hsval, hp2]
    have hg2 := hget2 p
    by_cases hm : p ∈ th.view
    · by_cases hc : ((thPass1 pli.targetRep th.view
          (th.store, 0)).1.getD p hitDefault).is_reported = true
      · rw [hg2, if_pos ⟨hm, hc⟩, if_pos hm, hchar1 p, if_pos hm]
        rw [hchar1 p, if_pos hm] at hc
        unfold f2
        rw [if_pos hc]
      · rw [hg2, if_neg (fun hand => hc hand.2), if_pos hm, hchar1 p, if_pos hm]
        rw [hchar1 p, if_pos hm] at hc
        unfold f2
        rw [if_neg hc]
    · rw [hg2, if_neg (fun hand => hm hand.1), if_neg hm, hchar1 p, if_neg hm]
  · rw [hnval, hp1, hcnt1, zero_add]

/-- Pipeline whose predicates accept everything (domZ not set by targets). -/
def c4pli : P7_PIPELINE :=
  { targetRep := fun _ _ => true
    domRep := fun _ _ => true
    domZ := 0
    domZ_setby_ntargets := false }

/-- Sorted one-record list whose record has no sub-records at all
(`ndom = 0`, `dcl = NULL`, `best_domain = -1`, as a fresh slot that the
caller never populated with domains). -/
def c4th : P7_TOPHITS :=
  { store := [mkHit 5 (some "h")]
    view := [0]
    Nalloc := 256
    nreported := 0
    is_sorted := true }

/-- C4 as stated (for *every* input list) is false: a record with zero
sub-records can be reported by the target predicate, and then it has no
reported sub-record — there is none to report. -/
theorem C4_counterexample :
    ((p7_tophits_Threshold c4th c4pli).1.store.getD 0 hitDefault).is_reported
      = true ∧
    ¬ ∃ dom ∈ ((p7_tophits_Threshold c4th c4pli).1.store.getD 0
        hitDefault).dcl.getD [], dom.is_reported = true := by
  decide

/-- C4 amended: after `p7_tophits_Threshold`, every reported record whose
best-domain index actually lies inside its (consistent) domain array has at
least one reported sub-record, for every pair of predicates — even when the
sub-record predicate rejects every sub-record, because the best domain is
reported unconditionally. -/
theorem C4_amended_best_domain_reported (th : P7_TOPHITS) (pli : P7_PIPELINE)
    (hperm : th.view.Perm (List.range th.store.length))
    (p : Nat) (hp : p < th.store.length)
    (hdcl : DclOk (th.store.getD p hitDefault))
    (hbl : 0 ≤ (th.store.getD p hitDefault).best_domain)
    (hbu : (th.store.getD p hitDefault).best_domain <
      ((th.store.getD p hitDefault).ndom : Int))
    (hrep : ((p7_tophits_Threshold th pli).1.store.getD p
      hitDefault).is_reported = true) :
    ∃ dom ∈ ((p7_tophits_Threshold th pli).1.store.getD p
      hitDefault).dcl.getD [], dom.is_reported = true := by
  obtain ⟨-, hchar, -, -⟩ := threshold_spec th pli hperm
  have hpv : p ∈ th.view := hperm.mem_iff.mpr (List.mem_range.mpr hp)
  rw [hchar p, if_pos hpv] at hrep ⊢
  set h0 := th.store.getD p hitDefault with hh0
  set x := f1 pli.targetRep h0 with hx
  have hxrep : x.is_reported = true := by
    by_contra hxr
    unfold f2 at hrep
    rw [if_neg hxr] at hrep
    exact hxr hrep
  have hf2 : f2 pli.domRep x = processDoms pli.domRep x := by
    unfold f2
    rw [if_pos hxrep]
  rw [hf2]
  have hndom : 1 ≤ h0.ndom := by
    rcases Nat.eq_zero_or_pos h0.ndom with h0n | h1n
    · rw [h0n] at hbu
      omega
    · exact h1n
  unfold DclOk at hdcl
  obtain ⟨l, hl⟩ : ∃ l, h0.dcl = some l := by
    cases hd : h0.dcl with
    | none =>
      exfalso
      have hz : dclLen h0 = 0 := by
        unfold dclLen
        rw [hd]
      omega
    | some l => exact ⟨l, rfl⟩
  have hdlen : h0.ndom = l.length := by
    have hz : dclLen h0 = l.length := by
      unfold dclLen
      rw [hl]
    omega
  have hxdcl : x.dcl = some l := by rw [hx, f1_dcl]; exact hl
  have hxlen : x.ndom = l.length := by rw [hx, f1_ndom]; exact hdlen
  obtain ⟨l', hl'dcl, hl'len, hl'get, -⟩ :=
    processDoms_spec pli.domRep x l hxdcl hxlen
  rw [hl'dcl]
  show ∃ dom ∈ l', dom.is_reported = true
  set b := h0.best_domain.toNat with hb
  have hbnd : b < x.ndom := by
    rw [hx, f1_ndom]
    omega
  have hcond : domCond pli.domRep x.best_domain l b = true := by
    unfold domCond
    have hbeq : (x.best_domain == (b : Int)) = true := by
      rw [hx, f1_best]
      exact beq_iff_eq.mpr (by omega)
    rw [hbeq]
    simp
  have hgb := hl'get b
  rw [if_pos ⟨List.mem_range.mpr hbnd, hcond⟩] at hgb
  refine ⟨l'.getD b domDefault, ?_, ?_⟩
  · apply getD_mem
    rw [hl'len, ← hxlen]
    exact hbnd
  · rw [hgb]

/-- Pipeline whose sub-record predicate rejects everything. -/
def c4apli : P7_PIPELINE :=
  { targetRep := fun _ _ => true
    domRep := fun _ _ => false
    domZ := 0
    domZ_setby_ntargets := true }

/-- A domain whose bitscore the witness pipeline's predicate rejects. -/
def c4adom : P7_DOMAIN :=
  { bitscore := -3, pvalue := 1, domcorrection := 0, is_reported := false,
    ad := some () }

/-- Sorted one-record list whose record owns one domain and points at it as
the best domain. -/
def c4ath : P7_TOPHITS :=
  { store := [{ mkHit 5 (some "h") with
      ndom := 1, best_domain := 0, dcl := some [c4adom] }]
    view := [0]
    Nalloc := 256
    nreported := 0
    is_sorted := true }

/-- Witness for the amended C4: the sub-record predicate rejects every
domain, yet the reported record's best domain is reported. -/
theorem C4_amended_witness :
    c4ath.view.Perm (List.range c4ath.store.length) ∧
    0 < c4ath.store.length ∧
    DclOk (c4ath.store.getD 0 hitDefault) ∧
    0 ≤ (c4ath.store.getD 0 hitDefault).best_domain ∧
    (c4ath.store.getD 0 hitDefault).best_domain <
      ((c4ath.store.getD 0 hitDefault).ndom : Int) ∧
    ((p7_tophits_Threshold c4ath c4apli).1.store.getD 0
      hitDefault).is_reported = true ∧
    ∃ dom ∈ ((p7_tophits_Threshold c4ath c4apli).1.store.getD 0
      hitDefault).dcl.getD [], dom.is_reported = true :=
  ⟨by decide, by decide, by decide, by decide, by decide, by decide,
    C4_amended_best_domain_reported c4ath c4apli (by decide) 0 (by decide)
      (by decide) (by decide) (by decide) (by decide)⟩

/-- The per-record effect of running the two Threshold passes twice on a
fresh record (per-record `nreported` zero, all domain flags down): the final
`nreported` is twice the number of finally-reported domains. -/
theorem double_count_per_hit (pred domRep : Int → Int → Bool) (h0 : P7_HIT)
    (hdcl : DclOk h0) (hn : h0.nreported = 0)
    (hdoms : ∀ dom ∈ h0.dcl.getD [], dom.is_reported = false) :
    (f2 domRep (f1 pred (f2 domRep (f1 pred h0)))).nreported =
      2 * ((((f2 domRep (f1 pred (f2 domRep (f1 pred h0)))).dcl.getD []).countP
        (fun dom => dom.is_reported)) : Int) := by
  set x := f1 pred h0 with hxdef
  by_cases hxr : x.is_reported = true
  · -- the record is reported after the first pass
    have hxf2 : f2 domRep x = processDoms domRep x := by
      unfold f2
      rw [if_pos hxr]
    have hxn : x.nreported = 0 := by rw [hxdef, f1_nreported]; exact hn
    have hxdcl0 : x.dcl = h0.dcl := by rw [hxdef, f1_dcl]
    have hxnd : x.ndom = h0.ndom := by rw [hxdef, f1_ndom]
    have hxb : x.best_domain = h0.best_domain := by rw [hxdef, f1_best]
    rcases hd : h0.dcl with _ | l
    · -- no domain array: the inner loop never runs, both counts are zero
      have hxdcl : x.dcl = none := by rw [hxdcl0, hd]
      have hpdx : processDoms domRep x = x := by
        simp only [processDoms, hxdcl]
      rw [hxf2, hpdx, f1_of_reported pred x hxr, hxf2, hpdx, hxn, hxdcl]
      simp
    · -- live domain array l, consistent length
      have hlen0 : h0.ndom = l.length := by
        unfold DclOk at hdcl
        have hz : dclLen h0 = l.length := by
          unfold dclLen
          rw [hd]
        omega
      have hxdcl : x.dcl = some l := by rw [hxdcl0, hd]
      have hxlen : x.ndom = l.length := by rw [hxnd]; exact hlen0
      obtain ⟨l1, h1dcl, h1len, h1get, h1cnt⟩ :=
        processDoms_spec domRep x l hxdcl hxlen
      set y := processDoms domRep x with hy
      have hyflag : y.is_reported = true := by rw [hy, pd_flag]; exact hxr
      have hyn : y.nreported =
          (((List.range x.ndom).countP (domCond domRep x.best_domain l)) : Int) := by
        rw [hy, h1cnt, hxn, zero_add]
      have hynd : y.ndom = x.ndom := by rw [hy, pd_ndom]
      have hybest : y.best_domain = x.best_domain := by rw [hy, pd_best]
      have hydcl : y.dcl = some l1 := by rw [hy, h1dcl]
      have hylen : y.ndom = l1.length := by rw [hynd, hxlen, h1len]
      obtain ⟨l2, h2dcl, h2len, h2get, h2cnt⟩ :=
        processDoms_spec domRep y l1 hydcl hylen
      have hcondeq : ∀ d : Nat,
          domCond domRep y.best_domain l1 d = domCond domRep x.best_domain l d := by
        intro d
        unfold domCond
        rw [hybest, h1get d]
        by_cases hcc : d ∈ List.range x.ndom ∧
            domCond domRep x.best_domain l d = true
        · rw [if_pos hcc]
        · rw [if_neg hcc]
      have hflag2 : ∀ d : Nat, d < l.length →
          (l2.getD d domDefault).is_reported = domCond domRep x.best_domain l d := by
        intro d hdlt
        have hdm : d ∈ List.range y.ndom :=
          List.mem_range.mpr (by rw [hynd, hxlen]; exact hdlt)
        have hdmx : d ∈ List.range x.ndom :=
          List.mem_range.mpr (by rw [hxlen]; exact hdlt)
        cases hcc : domCond domRep x.best_domain l d with
        | true =>
          have hcc1 : domCond domRep y.best_domain l1 d = true := by
            rw [hcondeq d]; exact hcc
          rw [h2get d, if_pos ⟨hdm, hcc1⟩]
        | false =>
          have hcc1 : ¬ domCond domRep y.best_domain l1 d = true := by
            rw [hcondeq d, hcc]
            exact Bool.false_ne_true
          rw [h2get d, if_neg (fun hand => hcc1 hand.2),
            h1get d, if_neg (fun hand => Bool.false_ne_true (hcc ▸ hand.2))]
          have hmem : l.getD d domDefault ∈ h0.dcl.getD [] := by
            rw [hd]
            exact getD_mem l d domDefault hdlt
          rw [hdoms (l.getD d domDefault) hmem]
      have hl2len : l2.length = l.length := by rw [h2len, h1len]
      have hcount2 : l2.countP (fun dom => dom.is_reported) =
          (List.range x.ndom).countP (domCond domRep x.best_domain l) := by
        conv_lhs => rw [← map_getD_range l2 domDefault]
        rw [List.countP_map, hl2len, ← hxlen]
        apply List.countP_congr
        intro d hdm
        have hdlt : d < l.length := by
          rw [← hxlen]
          exact List.mem_range.mp hdm
        simp only [Function.comp]
        rw [hflag2 d hdlt]
      have hcnt_eq : (List.range y.ndom).countP (domCond domRep y.best_domain l1) =
          (List.range x.ndom).countP (domCond domRep x.best_domain l) := by
        rw [hynd]
        exact List.countP_congr (fun d _ => by rw [hcondeq d])
      rw [hxf2, f1_of_reported pred y hyflag]
      have hyf2 : f2 domRep y = processDoms domRep y := by
        unfold f2
        rw [if_pos hyflag]
      rw [hyf2, h2dcl, h2cnt, hyn, hcnt_eq]
      simp only [Option.getD_some]
      rw [hcount2]
      ring
  · -- the record stays unreported: nothing changes in either call
    have hpred : pred h0.score h0.pvalue = false := by
      by_contra hp
      rw [Bool.not_eq_false] at hp
      have hfl := f1_flag pred h0
      rw [hp, Bool.or_true] at hfl
      exact hxr (hxdef ▸ hfl)
    have hf2x : f2 domRep x = x := by
      unfold f2
      rw [if_neg hxr]
    have hf1x : f1 pred x = x := by
      have hc : ¬ (pred x.score x.pvalue = true) := by
        rw [hxdef, f1_score, f1_pvalue, hpred]
        exact Bool.false_ne_true
      unfold f1
      rw [if_neg hc]
    rw [hf2x, hf1x, hf2x, hxdef, f1_nreported, f1_dcl, hn]
    have hcz : (h0.dcl.getD []).countP (fun dom => dom.is_reported) = 0 :=
      List.countP_eq_zero.mpr (fun a ha => by
        rw [hdoms a ha]
        exact Bool.false_ne_true)
    rw [hcz]
    simp

/-- C10. `p7_tophits_Threshold` is not idempotent on the per-record
counters: on a list of fresh records (per-record `nreported` zero, domain
flags down), a second call with the same predicates leaves the list-level
total unchanged (it is reset and recounted) but doubles each reported
record's per-record reported-sub-record count relative to its number of
reported sub-records, because neither per-record `nreported` nor the
`is_reported` flags are ever reset. -/
theorem C10_threshold_not_idempotent (th : P7_TOPHITS) (pli : P7_PIPELINE)
    (hperm : th.view.Perm (List.range th.store.length))
    (hfresh : ∀ hit ∈ th.store, hit.nreported = 0 ∧ DclOk hit ∧
      ∀ dom ∈ hit.dcl.getD [], dom.is_reported = false) :
    (p7_tophits_Threshold (p7_tophits_Threshold th pli).1 pli).1.nreported =
      (p7_tophits_Threshold th pli).1.nreported ∧
    ∀ p : Nat, p < th.store.length →
      ((p7_tophits_Threshold (p7_tophits_Threshold th pli).1 pli).1.store.getD p
        hitDefault).is_reported = true →
      ((p7_tophits_Threshold (p7_tophits_Threshold th pli).1 pli).1.store.getD p
        hitDefault).nreported =
        2 * ((((p7_tophits_Threshold (p7_tophits_Threshold th pli).1
          pli).1.store.getD p hitDefault).dcl.getD []).countP
            (fun dom => dom.is_reported) : Int) := by
  obtain ⟨hlen1, hchar1, hcnt1, hview1⟩ := threshold_spec th pli hperm
  set t1 := (p7_tophits_Threshold th pli).1 with ht1
  have hperm1 : t1.view.Perm (List.range t1.store.length) := by
    rw [hview1, hlen1]
    exact hperm
  obtain ⟨hlen2, hchar2, hcnt2, hview2⟩ := threshold_spec t1 pli hperm1
  constructor
  · rw [hcnt2, hcnt1, hview1]
    congr 1
    exact List.countP_congr (fun i hi => by
      rw [hchar1 i, if_pos hi, f2_score, f1_score, f2_pvalue, f1_pvalue])
  · intro p hp _
    have hpv : p ∈ th.view := hperm.mem_iff.mpr (List.mem_range.mpr hp)
    have hpv1 : p ∈ t1.view := by rw [hview1]; exact hpv
    have hstep : (p7_tophits_Threshold t1 pli).1.store.getD p hitDefault =
        f2 pli.domRep (f1 pli.targetRep (f2 pli.domRep (f1 pli.targetRep
          (th.store.getD p hitDefault)))) := by
      rw [hchar2 p, if_pos hpv1, hchar1 p, if_pos hpv]
    rw [hstep]
    obtain ⟨hfn, hfd, hfdoms⟩ := hfresh _ (getD_mem th.store p hitDefault hp)
    exact double_count_per_hit pli.targetRep pli.domRep _ hfd hfn hfdoms

/-- Pipeline accepting positive scores/bitscores, domZ set by targets. -/
def c10pli : P7_PIPELINE :=
  { targetRep := fun s _ => decide (0 < s)
    domRep := fun b _ => decide (0 < b)
    domZ := 0
    domZ_setby_ntargets := true }

/-- A domain the witness pipeline rejects. -/
def c10d0 : P7_DOMAIN :=
  { bitscore := -5, pvalue := 1, domcorrection := 0, is_reported := false,
    ad := some () }

/-- A domain the witness pipeline accepts. -/
def c10d1 : P7_DOMAIN :=
  { bitscore := 4, pvalue := 1, domcorrection := 0, is_reported := false,
    ad := some () }

/-- Sorted fresh two-record list: record 0 is reportable and owns two
domains (the rejected one is its best domain), record 1 is not reportable. -/
def c10th : P7_TOPHITS :=
  { store := [{ mkHit 8 (some "A") with
      score := 3, ndom := 2, best_domain := 0, dcl := some [c10d0, c10d1] },
      { mkHit 2 (some "B") with score := -1 }]
    view := [0, 1]
    Nalloc := 256
    nreported := 0
    is_sorted := true }

/-- Witness for C10 at the concrete list above (the reported record ends
with per-record count 4 = 2 × its 2 reported domains). -/
theorem C10_witness :
    c10th.view.Perm (List.range c10th.store.length) ∧
    (∀ hit ∈ c10th.store, hit.nreported = 0 ∧ DclOk hit ∧
      ∀ dom ∈ hit.dcl.getD [], dom.is_reported = false) ∧
    ((p7_tophits_Threshold (p7_tophits_Threshold c10th c10pli).1
        c10pli).1.nreported =
      (p7_tophits_Threshold c10th c10pli).1.nreported ∧
    ∀ p : Nat, p < c10th.store.length →
      ((p7_tophits_Threshold (p7_tophits_Threshold c10th c10pli).1
        c10pli).1.store.getD p hitDefault).is_reported = true →
      ((p7_tophits_Threshold (p7_tophits_Threshold c10th c10pli).1
        c10pli).1.store.getD p hitDefault).nreported =
        2 * ((((p7_tophits_Threshold (p7_tophits_Threshold c10th c10pli).1
          c10pli).1.store.getD p hitDefault).dcl.getD []).countP
            (fun dom => dom.is_reported) : Int)) :=
  ⟨by decide, by decide,
    C10_threshold_not_idempotent c10th c10pli (by decide) (by decide)⟩

end P7
